import Mathlib

/-!
Verification of the Recurring Task Scheduling Core of the
`recurring-task-management` repository.

Timestamps are modelled as integers of milliseconds since the epoch — like
JavaScript time values, which may be negative (before the epoch) — with the
local timezone taken to be UTC, so JavaScript `Date` hour/day arithmetic
becomes plain arithmetic modulo `msPerDay`.

The recurrence calculator (`RecurrenceEngineRRULE`, `src/core/engine/recurrence/
RecurrenceEngineRRULE.ts`) is embedded together with the repository's own
rule-evaluation library model (`src/__tests__/rrule-stub.ts`, the only
implementation of `RRule`/`rrulestr` under the sources): the real
`rrule` npm package is an external collaborator and is not part of the
repository.
-/

namespace RecurringCore

/-! ### Time arithmetic -/

/-- Milliseconds per minute. -/
def msPerMin : Int := 60000

/-- Milliseconds per hour. -/
def msPerHour : Int := 3600000

/-- Milliseconds per day. -/
def msPerDay : Int := 86400000

/-- Midnight (00:00:00.000 local time) of the calendar day containing `t`:
the JavaScript `d.setHours(0, 0, 0, 0)`. `%` on `Int` is Euclidean, with the
remainder in `[0, msPerDay)`, so this floors to local midnight also for
instants before the epoch, exactly as `setHours` does. -/
def startOfLocalDay (t : Int) : Int := t - t % msPerDay

/-- End of the calendar day containing `t` (23:59:59.999 local time):
the JavaScript `d.setHours(23, 59, 59, 999)`. -/
def endOfLocalDay (t : Int) : Int := startOfLocalDay t + (msPerDay - 1)

/-- The hour-and-minute part of timestamp `t`, in milliseconds: the value added
to a day start by `d.setHours(src.getHours()); d.setMinutes(src.getMinutes());
d.setSeconds(0); d.setMilliseconds(0)`; `getHours`/`getMinutes` are floor
based, matching the Euclidean `%`. -/
def hmOf (t : Int) : Int :=
  t % msPerDay / msPerHour * msPerHour + t % msPerHour / msPerMin * msPerMin

theorem startOfLocalDay_le (t : Int) : startOfLocalDay t ≤ t := by
  simp only [startOfLocalDay, msPerDay]
  omega

theorem lt_startOfLocalDay_add_day (t : Int) : t < startOfLocalDay t + msPerDay := by
  simp only [startOfLocalDay, msPerDay]
  omega

theorem startOfLocalDay_add_day (t : Int) :
    startOfLocalDay (t + msPerDay) = startOfLocalDay t + msPerDay := by
  simp only [startOfLocalDay, msPerDay]
  omega

theorem hmOf_nonneg (t : Int) : 0 ≤ hmOf t := by
  simp only [hmOf, msPerDay, msPerHour, msPerMin]
  omega

theorem hmOf_lt_day (t : Int) : hmOf t < msPerDay := by
  simp only [hmOf, msPerDay, msPerHour, msPerMin]
  omega

theorem startOfLocalDay_add_of_lt {r : Int} (t : Int) (h0 : 0 ≤ r) (h : r < msPerDay) :
    startOfLocalDay (startOfLocalDay t + r) = startOfLocalDay t := by
  simp only [startOfLocalDay, msPerDay] at h0 h ⊢
  omega

/-! ### Models of the JavaScript primitives used by the sources

Strings are manipulated through their character lists so that every operation
is structurally recursive and evaluates inside the kernel. -/

/-- JavaScript `s.split(sep)` on a character list: always returns at least one
(possibly empty) group. -/
def splitList (sep : Char) : List Char → List (List Char)
  | [] => [[]]
  | c :: rest =>
    let r := splitList sep rest
    if c = sep then [] :: r
    else
      match r with
      | [] => [[c]]
      | g :: gs => (c :: g) :: gs

/-- Build a `String` back from a character list. -/
def strOfChars (cs : List Char) : String := String.mk cs

/-- Uppercase a character list (ASCII, as used by `key.toUpperCase()`). -/
def toUpperList (cs : List Char) : List Char := cs.map Char.toUpper

/-- Whether `pat` occurs as a contiguous sublist of `cs`: models the regex test
`normalized.match(/FREQ=/i)` after uppercasing. -/
def containsList (pat : List Char) : List Char → Bool
  | [] => pat.isPrefixOf []
  | c :: rest => pat.isPrefixOf (c :: rest) || containsList pat rest

/-- Decimal value of a digit list. -/
def digitsToNat (cs : List Char) : Nat :=
  cs.foldl (fun n c => n * 10 + (c.toNat - 48)) 0

/-- Lowercase a character list (used to recognise the `e`/`E` exponent marker
of decimal numerals). -/
def toLowerList (cs : List Char) : List Char := cs.map Char.toLower

/-- ASCII whitespace stripped by `Number(str)` before parsing. -/
def isJsSpace (c : Char) : Bool :=
  c = ' ' || c = '\t' || c = '\n' || c = '\r' || c = '\x0b' || c = '\x0c'

/-- Strip leading and trailing whitespace, as `Number(str)` does. -/
def jsTrim (cs : List Char) : List Char :=
  ((cs.dropWhile isJsSpace).reverse.dropWhile isJsSpace).reverse

/-- Hexadecimal digit test. -/
def isHexDigit (c : Char) : Bool :=
  c.isDigit || (('a' ≤ c.toLower) && (c.toLower ≤ 'f'))

/-- Value of one (possibly hexadecimal) digit. -/
def hexDigitVal (c : Char) : Nat :=
  if c.isDigit then c.toNat - 48 else c.toLower.toNat - 87

/-- Value of a digit list in the given base. -/
def digitsVal (base : Nat) (cs : List Char) : Nat :=
  cs.foldl (fun n c => n * base + hexDigitVal c) 0

/-- A decimal mantissa split at its dot: `none` unless the text consists of
digits with at most one dot and at least one digit (so `5`, `5.`, `.5` and
`9.5` parse; `.` and `1.2.3` do not). -/
def parseMantissa (cs : List Char) : Option (List Char × List Char) :=
  match splitList '.' cs with
  | [a] => if !a.isEmpty && a.all Char.isDigit then some (a, []) else none
  | [a, b] =>
    if !(a ++ b).isEmpty && a.all Char.isDigit && b.all Char.isDigit then some (a, b)
    else none
  | _ => none

/-- A decimal exponent part: an optional sign and at least one digit. -/
def parseExponent (cs : List Char) : Option Int :=
  match cs with
  | '+' :: ds =>
    if !ds.isEmpty && ds.all Char.isDigit then some (digitsToNat ds : Int) else none
  | '-' :: ds =>
    if !ds.isEmpty && ds.all Char.isDigit then some (-(digitsToNat ds : Int)) else none
  | ds => if !ds.isEmpty && ds.all Char.isDigit then some (digitsToNat ds : Int) else none

/-- An unsigned decimal numeral (already lowercased) split into integer
digits, fraction digits and exponent: `digits [. digits] [e [sign] digits]`
with at least one mantissa digit. -/
def parseDecimalParts (cs : List Char) : Option (List Char × List Char × Int) :=
  match splitList 'e' cs with
  | [mant] => (parseMantissa mant).map fun p => (p.1, p.2, (0 : Int))
  | [mant, ex] =>
    match parseMantissa mant, parseExponent ex with
    | some p, some k => some (p.1, p.2, k)
    | _, _ => none
  | _ => none

/-- The magnitude of `I.F × 10^k` truncated toward zero, given the integer and
fraction digit lists — the integer `setHours` extracts from a finite double
through `ToIntegerOrInfinity`. The value is treated as an exact rational;
IEEE-754 rounding of decimal literals is not modelled. -/
def decTruncMagnitude (intDs fracDs : List Char) (k : Int) : Nat :=
  let ds := digitsToNat (intDs ++ fracDs)
  let scale : Int := k - fracDs.length
  if 0 ≤ scale then ds * 10 ^ scale.toNat
  else ds / 10 ^ (-scale).toNat

/-- The signed decimal arm of `Number(str)` (input already trimmed): an
optional sign followed by a decimal numeral, truncated toward zero. -/
def jsNumberDecimal (cs : List Char) : Option Int :=
  let sb : Int × List Char :=
    match cs with
    | '-' :: r => (-1, r)
    | '+' :: r => (1, r)
    | r => (1, r)
  match parseDecimalParts (toLowerList sb.2) with
  | some (iDs, fDs, k) => some (sb.1 * (decTruncMagnitude iDs fDs k : Int))
  | none => none

/-- JavaScript `Number(str)` combined with the `Number.isFinite` check its
callers apply, truncated toward zero as `setHours`'s `ToIntegerOrInfinity`
does: `none` stands for `NaN` or an infinity (`Infinity` fails `isFinite`).
Handles the empty or all-whitespace string (`0`), optionally signed decimal
numerals with fraction and exponent (`-1`, `9.5`, `15e-1`), and unsigned
`0x`/`0o`/`0b` radix literals. Unicode whitespace beyond ASCII and IEEE-754
rounding of decimal literals are not modelled. -/
def jsNumber (cs0 : List Char) : Option Int :=
  match jsTrim cs0 with
  | [] => some 0
  | '0' :: x :: rest =>
    if x = 'x' || x = 'X' then
      if !rest.isEmpty && rest.all isHexDigit then some (digitsVal 16 rest : Int) else none
    else if x = 'o' || x = 'O' then
      if !rest.isEmpty && rest.all (fun c => '0' ≤ c && c ≤ '7') then
        some (digitsVal 8 rest : Int)
      else none
    else if x = 'b' || x = 'B' then
      if !rest.isEmpty && rest.all (fun c => c = '0' || c = '1') then
        some (digitsVal 2 rest : Int)
      else none
    else jsNumberDecimal ('0' :: x :: rest)
  | cs => jsNumberDecimal cs

/-- JavaScript `parseInt(str, 10)`: parses the longest digit prefix, `NaN`
(modelled `none`) if there is none. Only used for `INTERVAL=` and `COUNT=`
values. A sign never changes observable behaviour here: `interval` is unused
downstream, and a negative or `NaN` count fails the dead `count === 0` guard
just as `none` does. -/
def jsParseInt (cs : List Char) : Option Nat :=
  let ds := cs.takeWhile Char.isDigit
  if ds.isEmpty then none else some (digitsToNat ds)

/-- JavaScript `new Date(str)` as used for `UNTIL=` values, restricted to the
millisecond-numeral strings used in this development; every other string is an
Invalid Date, modelled `none` (an Invalid Date compares false and never makes
the guards in `after`/`validateRRule` fire, exactly as `none` does here). -/
def jsNewDate (cs : List Char) : Option Int :=
  if cs.isEmpty then none
  else if cs.all Char.isDigit then some (digitsToNat cs : Int) else none

/-- JavaScript `a || b` for an optional string `a` (both `undefined` and the
empty string are falsy). -/
def jsOrStr (a : Option String) (b : String) : String :=
  match a with
  | some s => if s.isEmpty then b else s
  | none => b

/-! ### Data model (`src/core/models`) -/

/-- The recurrence-rule descriptor attached to a task. The fields are the union
of the `Frequency` interface of `src/core/models/Frequency.ts` and the fields
the engine and its tests read from it (`rruleString`, `dtstart`, `timezone`,
`whenDone`); `dtstart` is an ISO timestamp in the source, modelled in
milliseconds. -/
structure Frequency where
  type : String
  interval : Nat
  time : Option String
  weekdays : Option (List Nat)
  rruleString : Option String
  dtstart : Option Int
  timezone : Option String
  whenDone : Option Bool
deriving DecidableEq

/-- The subset of `Task` the scheduling core reads and writes. `dueAt` is an
ISO timestamp string in the source, modelled in milliseconds. -/
structure Task where
  id : String
  dueAt : Option Int
  enabled : Bool
  frequency : Option Frequency
  timezone : Option String
  whenDone : Option Bool
deriving DecidableEq

/-! ### The rule-evaluation library (`src/__tests__/rrule-stub.ts`) -/

/-- A compiled rule: the `origOptions` carried by the stub `RRule` class,
plus the `tzid` the engine adds. -/
structure RRule where
  freq : Option Nat
  interval : Option Nat
  «until» : Option Int
  count : Option Nat
  byweekday : Option (List String)
  dtstart : Option Int
  tzid : Option String
deriving DecidableEq

/-- The stub's `FREQ=` value map (`YEARLY`..`SECONDLY` to `0`..`6`, unknown
values defaulting to `3` via `?? 3`). -/
def freqOf (v : List Char) : Nat :=
  match strOfChars (toUpperList v) with
  | "YEARLY" => 0
  | "MONTHLY" => 1
  | "WEEKLY" => 2
  | "DAILY" => 3
  | "HOURLY" => 4
  | "MINUTELY" => 5
  | "SECONDLY" => 6
  | _ => 3

/-- One `parts.forEach` step of the stub's `rrulestr`: split the part on `=`,
skip it when key or value is missing or empty, otherwise dispatch on the
uppercased key. -/
def rrulestrStep (o : RRule) (part : List Char) : RRule :=
  match splitList '=' part with
  | [] => o
  | [_] => o
  | k :: v :: _ =>
    if k.isEmpty || v.isEmpty then o
    else
      match strOfChars (toUpperList k) with
      | "FREQ" => { o with freq := some (freqOf v) }
      | "INTERVAL" => { o with interval := jsParseInt v }
      | "UNTIL" => { o with «until» := jsNewDate v }
      | "COUNT" => { o with count := jsParseInt v }
      | "BYDAY" => { o with byweekday := some ((splitList ',' v).map strOfChars) }
      | _ => o

/-- The stub's `rrulestr(str)`: strip an `RRULE:` prefix, reject strings
without `FREQ=` (case-insensitive) by throwing `Invalid RRULE format`
(modelled as `Except.error`), fold the `;`-separated parts into options, and
default `dtstart` to `new Date()` (the current time `now`). -/
def rrulestr (str : String) (now : Int) : Except String RRule :=
  let cs := str.toList
  let normalized := if cs.take 6 = "RRULE:".toList then cs.drop 6 else cs
  if !containsList "FREQ=".toList (toUpperList normalized) then
    Except.error "Invalid RRULE format"
  else
    let parts := splitList ';' normalized
    let opts := parts.foldl rrulestrStep
      { freq := none, interval := none, «until» := none, count := none,
        byweekday := none, dtstart := none, tzid := none }
    match opts.dtstart with
    | none => Except.ok { opts with dtstart := some now }
    | some _ => Except.ok opts

/-- The stub's `RRule.after(date, inc)`: `null` when the series has ended
(`until` present and `date >= until`); otherwise the same instant (inclusive)
or one day later (non-inclusive), re-timed to `dtstart`'s hour and minute with
seconds and milliseconds zeroed when a `dtstart` is present. -/
def RRule.after (r : RRule) (date : Int) (inc : Bool) : Option Int :=
  if (match r.«until» with | some u => decide (u ≤ date) | none => false) then none
  else
    let result := if inc then date else date + msPerDay
    match r.dtstart with
    | some d0 => some (startOfLocalDay result + hmOf d0)
    | none => some result

/-- The candidate the stub's `RRule.between` pushes for loop position
`current`: the current instant, re-timed to `dtstart`'s hour and minute (with
seconds and milliseconds zeroed) when a `dtstart` is present. -/
def betweenCand (dtstart : Option Int) (current : Int) : Int :=
  match dtstart with
  | some d0 => startOfLocalDay current + hmOf d0
  | none => current

/-- The loop of the stub's `RRule.between` — `while (current <= before) {
push candidate; current += 1 day }` — structurally recursive on the number of
remaining iterations, which `RRule.between` computes below. -/
def betweenGo (dtstart : Option Int) : Int → Nat → List Int
  | _, 0 => []
  | current, n + 1 => betweenCand dtstart current :: betweenGo dtstart (current + msPerDay) n

/-- The stub's `RRule.between(after, before, inc)` (the stub ignores `inc`).
Starting from `current = a`, the loop steps by exactly one day and stops as
soon as `current > b`, so it runs `⌈(b + 1 - a) / msPerDay⌉` times: zero times
when `a > b` (then `b + 1 - a = 0` in `Nat`), and `(b - a) / msPerDay + 1`
times otherwise. -/
def RRule.between (r : RRule) (a b : Int) (_inc : Bool) : List Int :=
  betweenGo r.dtstart a ((b + 1 - a + (msPerDay - 1)) / msPerDay).toNat

/-! ### The recurrence calculator (`RecurrenceEngineRRULE`) -/

/-- The compiled-rule cache `rruleCache : Map<string, RRule>`, as an
association list inserted into only when a key is absent. -/
abbrev Cache : Type := List (String × RRule)

/-- JavaScript `Map.get`. -/
def cacheFind (c : Cache) (k : String) : Option RRule :=
  match c with
  | [] => none
  | (k2, r) :: rest => if k2 == k then some r else cacheFind rest k

/-- JavaScript `Map.set` of a key known to be absent. -/
def cacheInsert (c : Cache) (k : String) (r : RRule) : Cache := (k, r) :: c

/-- The engine's cache key, the template literal
`${task.id}:${task.frequency.rruleString}` (an absent rule string prints as
`undefined`). -/
def cacheKey (task : Task) : String :=
  task.id ++ ":" ++
    (match task.frequency with
     | some f => match f.rruleString with | some rs => rs | none => "undefined"
     | none => "undefined")

/-- Modelled from the spec: `getUserTimezone` (`src/utils/timezone.ts` is not
under the sources); it returns the user's timezone identifier, which never
influences occurrence arithmetic in this model. -/
def getUserTimezone : String := "UTC"

/-- The engine's normalization, `rruleString.startsWith('RRULE:') ?
rruleString : 'RRULE:' + rruleString` (also used by `validateRRule` and
`toNaturalLanguage`). -/
def normalizeRRule (s : String) : String :=
  if s.toList.take 6 = "RRULE:".toList then s else "RRULE:" ++ s

/-- `RecurrenceEngineRRULE.getRRule(task)`: return the cached compiled rule
for `(task.id, rruleString)` if present; otherwise parse the normalized rule
string (which may throw, modelled as `Except.error`, in which case the cache
is left untouched), override `dtstart` with `frequency.dtstart`, else with
`task.dueAt`, set `tzid` from `frequency.timezone || task.timezone ||
getUserTimezone()`, and cache the result. -/
def getRRule (task : Task) (cache : Cache) (now : Int) :
    Except String (RRule × Cache) :=
  match task.frequency with
  | none => Except.error "TypeError: cannot read rruleString of undefined"
  | some f =>
    let key := cacheKey task
    match cacheFind cache key with
    | some r => Except.ok (r, cache)
    | none =>
      match rrulestr (normalizeRRule (f.rruleString.getD "")) now with
      | Except.error e => Except.error e
      | Except.ok parsed =>
        let withStart :=
          match f.dtstart with
          | some d => { parsed with dtstart := some d }
          | none =>
            match task.dueAt with
            | some d => { parsed with dtstart := some d }
            | none => parsed
        let r := { withStart with
                   tzid := some (jsOrStr f.timezone (jsOrStr task.timezone getUserTimezone)) }
        Except.ok (r, cacheInsert cache key r)

/-- `RecurrenceEngineRRULE.getBaseDate(task, from)`: both the `whenDone` and
the fixed-schedule branch return the reference date unchanged. -/
def getBaseDate (task : Task) (f : Frequency) (fromDate : Int) : Int :=
  let whenDone := (f.whenDone.or task.whenDone).getD false
  if whenDone then fromDate else fromDate

/-- The `frequency.time.split(':').map(Number)` destructuring of
`applyFixedTime`: `none` exactly when `Number.isFinite` rejects the hour or
the minute component (a missing minute destructures to `undefined`). -/
def parseTimeHM (t : String) : Option (Int × Int) :=
  let parts := splitList ':' t.toList
  let hours := jsNumber (parts.getD 0 [])
  let minutes :=
    match parts with
    | [] => none
    | [_] => none
    | _ :: p1 :: _ => jsNumber p1
  match hours, minutes with
  | some h, some m => some (h, m)
  | _, _ => none

/-- `RecurrenceEngineRRULE.applyFixedTime(date, frequency)`: when a (truthy)
`frequency.time` parses to finite hour and minute numbers, `result.setHours(
hours, minutes, 0, 0)` — day start plus the given (truncated, possibly
negative) hours and minutes, JavaScript rolling any excess over into the
following days and negative components back into preceding days; otherwise
the date is returned unchanged. -/
def applyFixedTime (f : Frequency) (date : Int) : Int :=
  match f.time with
  | none => date
  | some t =>
    if t = "" then date
    else
      match parseTimeHM t with
      | some (h, m) => startOfLocalDay date + h * msPerHour + m * msPerMin
      | none => date

/-- `RecurrenceEngineRRULE.getNextOccurrence(task, from)`: `null` when the
task has no (truthy) rule string; otherwise compile the rule (any thrown
error is caught, logged and turned into `null`), take the library's first
occurrence strictly after the base date, and apply the fixed-time overlay.
Returns the result together with the updated cache. -/
def getNextOccurrence (task : Task) (fromDate : Int) (cache : Cache) (now : Int) :
    Option Int × Cache :=
  match task.frequency with
  | none => (none, cache)
  | some f =>
    match f.rruleString with
    | none => (none, cache)
    | some rs =>
      if rs = "" then (none, cache)
      else
        match getRRule task cache now with
        | Except.error _ => (none, cache)
        | Except.ok (rrule, cache2) =>
          let baseDate := getBaseDate task f fromDate
          match rrule.after baseDate false with
          | none => (none, cache2)
          | some next => (some (applyFixedTime f next), cache2)

/-- `RecurrenceEngineRRULE.getOccurrencesBetween(task, from, to)`: all library
occurrences in the inclusive range, with the fixed-time overlay mapped over
every element; `[]` when the rule string is missing or any error is thrown. -/
def getOccurrencesBetween (task : Task) (fromDate toDate : Int) (cache : Cache)
    (now : Int) : List Int × Cache :=
  match task.frequency with
  | none => ([], cache)
  | some f =>
    match f.rruleString with
    | none => ([], cache)
    | some rs =>
      if rs = "" then ([], cache)
      else
        match getRRule task cache now with
        | Except.error _ => ([], cache)
        | Except.ok (rrule, cache2) =>
          ((rrule.between fromDate toDate true).map (applyFixedTime f), cache2)

/-- `RecurrenceEngineRRULE.isOccurrenceOn(task, date)`: whether the library
reports at least one occurrence between the start (00:00:00.000) and the end
(23:59:59.999) of `date`'s local calendar day; `false` when the rule string is
missing or any error is thrown. -/
def isOccurrenceOn (task : Task) (date : Int) (cache : Cache) (now : Int) :
    Bool × Cache :=
  match task.frequency with
  | none => (false, cache)
  | some f =>
    match f.rruleString with
    | none => (false, cache)
    | some rs =>
      if rs = "" then (false, cache)
      else
        match getRRule task cache now with
        | Except.error _ => (false, cache)
        | Except.ok (rrule, cache2) =>
          let occurrences := rrule.between (startOfLocalDay date) (endOfLocalDay date) true
          (decide (0 < occurrences.length), cache2)

/-- The result record of `validateRRule`. -/
structure RValidation where
  valid : Bool
  error : Option String
deriving DecidableEq

/-- `RecurrenceEngineRRULE.validateRRule(rruleString)`: reject empty input,
parse the normalized rule (parse errors become `valid=false` with the thrown
message), default a missing `dtstart` to now, and when no occurrence exists at
or after now, report an expired `UNTIL` or a zero `COUNT`; note the literal
translation of `options.count && options.count === 0`, whose first conjunct is
JavaScript truthiness. -/
def validateRRule (s : String) (now : Int) : RValidation :=
  if s = "" then { valid := false, error := some "RRULE string is required" }
  else
    match rrulestr (normalizeRRule s) now with
    | Except.error e => { valid := false, error := some e }
    | Except.ok parsed =>
      let options :=
        match parsed.dtstart with
        | none => { parsed with dtstart := some now }
        | some _ => parsed
      match options.after now true with
      | some _ => { valid := true, error := none }
      | none =>
        if (match options.«until» with | some u => decide (u < now) | none => false) then
          { valid := false, error := some "RRULE has expired (UNTIL date is in the past)" }
        else if (match options.count with | some c => !(c == 0) && (c == 0) | none => false) then
          { valid := false, error := some "RRULE COUNT is 0" }
        else { valid := true, error := none }

/-- `RecurrenceEngineRRULE.clearCache()`. -/
def clearCache (_cache : Cache) : Cache := []

/-- `RecurrenceEngineRRULE.getCacheSize()`. -/
def getCacheSize (cache : Cache) : Nat := cache.length

/-! ### Due-task selection (`src/core/storage/TaskStorage.ts` and the
dashboard helper of the same name) -/

/-- `getTodayAndOverdueTasks(tasks, now)`: the enabled tasks whose due date is
at or before the end (23:59:59.999) of `now`'s local calendar day. An absent
`dueAt` parses to an Invalid Date, whose comparisons are false. The
`TaskStorage` method is the same filter over its map with `now = new Date()`. -/
def getTodayAndOverdueTasks (tasks : List Task) (now : Int) : List Task :=
  let endOfToday := endOfLocalDay now
  tasks.filter fun task =>
    if !task.enabled then false
    else
      match task.dueAt with
      | some d => decide (d ≤ endOfToday)
      | none => false

/-- The selection the claim describes, written from the spec's words: exactly
the enabled tasks with `dueAt <= now`. Stated only to be compared with
`getTodayAndOverdueTasks`. -/
def dueSelectionSpec (tasks : List Task) (now : Int) : List Task :=
  tasks.filter fun task =>
    task.enabled &&
      match task.dueAt with
      | some d => decide (d ≤ now)
      | none => false

/-! ### Scheduler recovery, modelled from the spec

The `Scheduler` implementation (`src/core/engine/Scheduler.ts`) is not under
the sources; only its tests are. Its recovery procedure is therefore modelled
from spec section 4.2, on top of the embedded recurrence calculator. -/

/-- Modelled from the spec: the `SchedulerEvent` tagged union
`{Due{taskId, dueAt}, Overdue{taskId, missedAt}}` (the `Scheduler` source is
not under the sources). -/
inductive SchedulerEvent where
  | due (taskId : String) (dueAt : Int)
  | overdue (taskId : String) (missedAt : Int)
deriving DecidableEq

/-- Modelled from the spec: the recovery walk of `recoverMissedTasks` (the
`Scheduler` source is not under the sources) — "walk forward from the marker's
timestamp up to `now`, collecting every occurrence the task would have hit in
that window", asking the recurrence calculator for each next occurrence and
stopping at the safety cap. -/
def walkMissed (task : Task) (cache : Cache) (now : Int) : Nat → Int → List Int
  | 0, _ => []
  | cap + 1, cur =>
    match (getNextOccurrence task cur cache now).1 with
    | none => []
    | some nxt => if nxt ≤ now then nxt :: walkMissed task cache now cap nxt else []

/-- Modelled from the spec: the catch-up step of `recoverMissedTasks` (the
`Scheduler` source is not under the sources) — "set the task's `dueAt` to the
first occurrence strictly after `now`". -/
def catchUp (task : Task) (cache : Cache) (now : Int) : Nat → Int → Option Int
  | 0, _ => none
  | fuel + 1, cur =>
    match (getNextOccurrence task cur cache now).1 with
    | none => none
    | some nxt => if now < nxt then some nxt else catchUp task cache now fuel nxt

/-- Modelled from the spec: the per-task step of `recoverMissedTasks` (the
`Scheduler` source is not under the sources). Disabled tasks are skipped
entirely (zero events, `dueAt` untouched); an enabled task emits one `Overdue`
event per missed occurrence, oldest first, and its `dueAt` is advanced to the
first occurrence strictly after `now`. -/
def recoverTask (task : Task) (cache : Cache) (now sinceTs : Int) (cap : Nat) :
    List SchedulerEvent × Task :=
  if !task.enabled then ([], task)
  else
    let missed := walkMissed task cache now cap sinceTs
    let events := missed.map fun ts => SchedulerEvent.overdue task.id ts
    match catchUp task cache now (cap + 1) sinceTs with
    | some nxt => (events, { task with dueAt := some nxt })
    | none => (events, task)

/-- Modelled from the spec: `Scheduler.recoverMissedTasks()` (the `Scheduler`
source is not under the sources). An absent `LastRunMarker` means cold start —
no recovery; otherwise every task is processed in order and a new marker
carrying `now` is written at the end. Returns the emitted events, the updated
tasks and the new marker timestamp. -/
def recoverMissedTasks (tasks : List Task) (marker : Option Int) (now : Int) (cap : Nat)
    (cache : Cache) : List SchedulerEvent × List Task × Int :=
  match marker with
  | none => ([], tasks, now)
  | some sinceTs =>
    let results := tasks.map fun t => recoverTask t cache now sinceTs cap
    ((results.map Prod.fst).flatten, results.map Prod.snd, now)

/-! ### Persistence controller, modelled from the spec

The `TaskPersistenceController` implementation
(`src/core/storage/TaskPersistenceController.ts`) is not under the sources;
only its tests are. Its debounce behaviour is modelled from spec section 4.3. -/

/-- Modelled from the spec: the controller state of `TaskPersistenceController`
(source not under the sources) — the single pending-state slot, the debounce
deadline of the running timer, and the log of performed `Writer.write` calls. -/
structure PCState (σ : Type) where
  pending : Option σ
  deadline : Option Nat
  writes : List σ

/-- Modelled from the spec: `requestSave(state)` at time `t` (the
`TaskPersistenceController` source is not under the sources) — replace the
single pending-state slot and (re)start the debounce timer of `D`
milliseconds; no write happens here. -/
def requestSave {σ : Type} (D t : Nat) (s : σ) (st : PCState σ) : PCState σ :=
  { pending := some s, deadline := some (t + D), writes := st.writes }

/-- Modelled from the spec: the debounce timer firing (the
`TaskPersistenceController` source is not under the sources) — once time
reaches the deadline with a pending state, that state is written and the slot
cleared. -/
def elapseTo {σ : Type} (t : Nat) (st : PCState σ) : PCState σ :=
  match st.deadline, st.pending with
  | some dl, some s =>
    if dl ≤ t then { pending := none, deadline := none, writes := st.writes ++ [s] }
    else st
  | _, _ => st

/-- Modelled from the spec: a run of the controller over time-stamped
`requestSave` calls followed by waiting until `horizon` (the
`TaskPersistenceController` source is not under the sources). -/
def runSaves {σ : Type} (D : Nat) (st : PCState σ) : List (Nat × σ) → Nat → PCState σ
  | [], horizon => elapseTo horizon st
  | (t, s) :: rest, horizon => runSaves D (requestSave D t s (elapseTo t st)) rest horizon

/-- The requests after time `t` all fall inside the running debounce window:
each arrives no earlier than the previous one and strictly before the previous
deadline. -/
def withinWindow {σ : Type} (D : Nat) : Nat → List (Nat × σ) → Bool
  | _, [] => true
  | t, (t2, _) :: rest => decide (t ≤ t2) && decide (t2 < t + D) && withinWindow D t2 rest

/-! ### Concrete fixtures

`nowTs` is 14:00:00.000 local time on day 20000 after the epoch;
`markerTs` is exactly two days earlier; `dueYesterdayTs` is 09:00:00.000 of
the previous day. -/

/-- A concrete reference instant, 14:00 local time. -/
def nowTs : Int := 1728050400000

/-- Two days before `nowTs`. -/
def markerTs : Int := 1727877600000

/-- 09:00 local time one day before `nowTs`. -/
def dueYesterdayTs : Int := 1727946000000

/-- A daily-at-09:00 recurrence rule as the scheduler tests build it. -/
def freqDaily : Frequency :=
  { type := "daily", interval := 1, time := some "09:00", weekdays := none,
    rruleString := some "RRULE:FREQ=DAILY", dtstart := none, timezone := none,
    whenDone := none }

/-- An enabled daily task that was due yesterday at 09:00. -/
def taskDaily : Task :=
  { id := "daily-1", dueAt := some dueYesterdayTs, enabled := true,
    frequency := some freqDaily, timezone := none, whenDone := none }

/-! ### C1 — due-task selection -/

/-- C1 (counterexample): an enabled task due one hour after `nowTs`, on the
same calendar day, is returned by `getTodayAndOverdueTasks`, while the
selection the claim describes (`dueAt <= now`) excludes it — the helper does
not return exactly the enabled tasks with `dueAt <= now`. -/
theorem getTodayAndOverdueTasks_future_same_day_included :
    getTodayAndOverdueTasks
        [{ id := "t-future", dueAt := some (nowTs + msPerHour), enabled := true,
           frequency := none, timezone := none, whenDone := none }] nowTs =
      [{ id := "t-future", dueAt := some (nowTs + msPerHour), enabled := true,
         frequency := none, timezone := none, whenDone := none }] ∧
    dueSelectionSpec
        [{ id := "t-future", dueAt := some (nowTs + msPerHour), enabled := true,
           frequency := none, timezone := none, whenDone := none }] nowTs = [] ∧
    startOfLocalDay (nowTs + msPerHour) = startOfLocalDay nowTs ∧
    nowTs < nowTs + msPerHour := by
  decide

/-- C1 (amended): `getTodayAndOverdueTasks` returns exactly the enabled tasks
whose `dueAt` is at or before the end (23:59:59.999) of the current local
calendar day — not the enabled tasks with `dueAt <= now`. -/
theorem getTodayAndOverdueTasks_mem_iff (tasks : List Task) (now : Int) (task : Task) :
    task ∈ getTodayAndOverdueTasks tasks now ↔
      task ∈ tasks ∧ task.enabled = true ∧
        ∃ d, task.dueAt = some d ∧ d ≤ endOfLocalDay now := by
  simp only [getTodayAndOverdueTasks, List.mem_filter]
  cases he : task.enabled <;> cases hd : task.dueAt <;>
    simp [he, hd]

/-! ### C2 — unparseable rules and `computeNext` -/

/-- A task whose rule string has no `FREQ=` part and cannot be parsed. -/
def taskBadRule : Task :=
  { id := "bad-1", dueAt := some dueYesterdayTs, enabled := true,
    frequency := some { freqDaily with rruleString := some "INVALID" },
    timezone := none, whenDone := none }

/-- C2 (counterexample): the rule string of `taskBadRule` is unparseable —
`rrulestr` throws `Invalid RRULE format` — yet `getNextOccurrence` reports
plain absence (`none`), exactly what the claim says never happens: the parse
error is caught and logged inside the engine, not surfaced to the caller. -/
theorem getNextOccurrence_unparseable_silently_none :
    rrulestr (normalizeRRule "INVALID") nowTs = Except.error "Invalid RRULE format" ∧
    (getNextOccurrence taskBadRule markerTs [] nowTs).1 = none :=
  ⟨rfl, rfl⟩

/-- C2 (amended): whenever the task's rule string fails to parse (and no
compiled rule is cached for the task), `computeNext` catches the error and
returns `none` with the cache untouched: `none` does not distinguish an ended
series from an unparseable rule, and no error reaches the caller. -/
theorem getNextOccurrence_unparseable_returns_none
    (task : Task) (f : Frequency) (rs : String) (fromDate : Int) (cache : Cache)
    (now : Int) (e : String)
    (hf : task.frequency = some f) (hrs : f.rruleString = some rs)
    (hmiss : cacheFind cache (cacheKey task) = none)
    (hparse : rrulestr (normalizeRRule rs) now = Except.error e) :
    getNextOccurrence task fromDate cache now = (none, cache) := by
  by_cases hne : rs = ""
  · simp only [getNextOccurrence, hf, hrs, if_pos hne]
  · simp only [getNextOccurrence, hf, hrs, if_neg hne, getRRule, hmiss, hrs,
      Option.getD_some, hparse]

/-- C2 (witness for the amended theorem). -/
theorem getNextOccurrence_unparseable_returns_none_witness :
    getNextOccurrence taskBadRule markerTs [] nowTs = (none, []) :=
  getNextOccurrence_unparseable_returns_none taskBadRule
    { freqDaily with rruleString := some "INVALID" } "INVALID" markerTs [] nowTs
    "Invalid RRULE format" rfl rfl rfl rfl

/-! ### C7 — `validateRRule` and zero-occurrence rules -/

/-- C7 (code bug): `FREQ=DAILY;COUNT=0` is a syntactically valid rule that can
produce zero occurrences, yet `validateRRule` reports it `valid` with no
error. The code's own `RRULE COUNT is 0` branch is unreachable: its guard
`options.count && options.count === 0` is always false, since a zero count is
falsy in JavaScript. -/
theorem validateRRule_count_zero_reported_valid :
    validateRRule "FREQ=DAILY;COUNT=0" nowTs = { valid := true, error := none } := by
  decide

/-! ### C8 — the fixed-time overlay -/

/-- C8 (counterexample): the malformed clock time `25:00` is not returned
unchanged — `setHours(25, 0, 0, 0)` rolls over into the next calendar day, so
the overlay both changes the instant and moves it to a different calendar
date, contradicting the claim whichever class `25:00` is put in. -/
theorem applyFixedTime_hour25_rolls_over :
    applyFixedTime { freqDaily with time := some "25:00" } 1728036000000 =
      1728090000000 ∧
    applyFixedTime { freqDaily with time := some "25:00" } 1728036000000 ≠
      1728036000000 ∧
    startOfLocalDay 1728090000000 ≠ startOfLocalDay 1728036000000 := by
  decide

/-- C8 (amended): when `frequency.time` parses to finite hour and minute
components (truncated to integers as `setHours` does), the overlay sets the
time to those components with seconds zeroed — `startOfLocalDay date + h
hours + m minutes` — staying on the same calendar date exactly when the
components form a real clock time (`0 ≤ h ≤ 23`, `0 ≤ m ≤ 59`); a parsed
negative hour rolls the occurrence back into an earlier calendar day; when a
component fails to parse as a finite number, the date is returned unchanged
(and the overlay never throws — it is a total function). -/
theorem applyFixedTime_overlay (f : Frequency) (t : String) (date : Int)
    (ht : f.time = some t) :
    (∀ h m, parseTimeHM t = some (h, m) →
        applyFixedTime f date = startOfLocalDay date + h * msPerHour + m * msPerMin ∧
        (0 ≤ h → h ≤ 23 → 0 ≤ m → m ≤ 59 →
          startOfLocalDay (applyFixedTime f date) = startOfLocalDay date) ∧
        (h < 0 → 0 ≤ m → m ≤ 59 →
          applyFixedTime f date < startOfLocalDay date) ∧
        applyFixedTime f date % msPerMin = 0) ∧
    (parseTimeHM t = none → applyFixedTime f date = date) := by
  constructor
  · intro h m hp
    have hne : ¬t = "" := by
      intro h0
      have hnone : parseTimeHM "" = none := by decide
      rw [h0, hnone] at hp
      exact Option.noConfusion hp
    have happ : applyFixedTime f date = startOfLocalDay date + h * msPerHour + m * msPerMin := by
      simp only [applyFixedTime, ht, if_neg hne, hp]
    refine ⟨happ, ?_, ?_, ?_⟩
    · intro h0 h23 m0 m59
      rw [happ, Int.add_assoc]
      refine startOfLocalDay_add_of_lt date ?_ ?_ <;>
        · simp only [msPerHour, msPerMin, msPerDay]
          omega
    · intro hneg m0 m59
      rw [happ]
      simp only [msPerHour, msPerMin]
      omega
    · rw [happ]
      simp only [startOfLocalDay, msPerHour, msPerMin, msPerDay]
      omega
  · intro hp
    by_cases hne : t = ""
    · simp only [applyFixedTime, ht, if_pos hne]
    · simp only [applyFixedTime, ht, if_neg hne, hp]

/-- C8 (witness for the amended theorem): the well-formed fixed time `09:30`
overlays 09:30:00.000 onto the occurrence's own calendar day. -/
theorem applyFixedTime_overlay_witness :
    applyFixedTime { freqDaily with time := some "09:30" } 1728036000000 =
      startOfLocalDay 1728036000000 + 9 * msPerHour + 30 * msPerMin ∧
    ((0 : Int) ≤ 9 → (9 : Int) ≤ 23 → (0 : Int) ≤ 30 → (30 : Int) ≤ 59 →
      startOfLocalDay (applyFixedTime { freqDaily with time := some "09:30" } 1728036000000) =
        startOfLocalDay 1728036000000) ∧
    ((9 : Int) < 0 → (0 : Int) ≤ 30 → (30 : Int) ≤ 59 →
      applyFixedTime { freqDaily with time := some "09:30" } 1728036000000 <
        startOfLocalDay 1728036000000) ∧
    applyFixedTime { freqDaily with time := some "09:30" } 1728036000000 % msPerMin = 0 :=
  (applyFixedTime_overlay { freqDaily with time := some "09:30" } "09:30" 1728036000000
    rfl).1 9 30 (by decide)

/-! ### C4 — `computeNext` against `from` -/

/-- When every parse of the frequency's fixed time yields nonnegative
components, the overlay never moves an occurrence before the start of its own
calendar day. -/
theorem startOfLocalDay_le_applyFixedTime_of_nonneg (f : Frequency) (y : Int)
    (hnn : ∀ t h m, f.time = some t → parseTimeHM t = some (h, m) → 0 ≤ h ∧ 0 ≤ m) :
    startOfLocalDay y ≤ applyFixedTime f y := by
  unfold applyFixedTime
  cases ht : f.time with
  | none => exact startOfLocalDay_le y
  | some t =>
    by_cases hne : t = ""
    · simp only [if_pos hne]
      exact startOfLocalDay_le y
    · simp only [if_neg hne]
      cases hp : parseTimeHM t with
      | none => exact startOfLocalDay_le y
      | some p =>
        obtain ⟨h1, m1⟩ := p
        have hb := hnn t h1 m1 ht hp
        simp only [msPerHour, msPerMin]
        omega

/-- The stub's non-inclusive `after` always lands on the calendar day after
`x` (one day later, possibly re-timed to `dtstart`'s time of day). -/
theorem after_noninclusive_next_day (r : RRule) (x y : Int)
    (h : RRule.after r x false = some y) :
    startOfLocalDay x + msPerDay ≤ y ∧
      startOfLocalDay y = startOfLocalDay x + msPerDay := by
  unfold RRule.after at h
  split at h
  · exact Option.noConfusion h
  · simp only [Bool.false_eq_true, if_false] at h
    cases hd : r.dtstart with
    | some d0 =>
      simp only [hd, Option.some_inj] at h
      subst h
      have hS := startOfLocalDay_add_day x
      have hh0 := hmOf_nonneg d0
      constructor
      · omega
      · rw [startOfLocalDay_add_of_lt _ (hmOf_nonneg d0) (hmOf_lt_day d0),
          startOfLocalDay_add_day]
    | none =>
      simp only [hd, Option.some_inj] at h
      subst h
      have h1 := startOfLocalDay_le x
      have h2 := startOfLocalDay_add_day x
      exact ⟨by omega, h2⟩

/-- An enabled daily task whose fixed time is the malformed `-24:00`:
`Number("-24")` is the finite number `-24`, which passes the overlay's
`Number.isFinite` gate. -/
def taskNegTime : Task :=
  { id := "neg-1", dueAt := some dueYesterdayTs, enabled := true,
    frequency := some { freqDaily with time := some "-24:00" }, timezone := none,
    whenDone := none }

/-- C4 (counterexample): with fixed time `-24:00`, `setHours(-24, 0, 0, 0)`
rolls the library's next-day occurrence a full day back, so `computeNext`
from `nowTs` returns the midnight *before* `nowTs` — an occurrence that is
not strictly after `from`. -/
theorem getNextOccurrence_overlay_rolls_back :
    (getNextOccurrence taskNegTime nowTs [] nowTs).1 = some 1728000000000 ∧
    (1728000000000 : Int) < nowTs := by
  decide

/-- C4 (amended): every occurrence `computeNext` returns is strictly after
the reference instant `from` — fixed-time overlay included — provided the
overlay's parsed components are nonnegative (any real `HH:mm` clock time,
however large the hour; also an absent, empty or unparseable time): the
library's non-inclusive `after` lands on the next calendar day and such an
overlay stays within the occurrence's own day or later. A parsed negative
component can instead roll the occurrence back to or before `from`, as the
counterexample shows. -/
theorem getNextOccurrence_strictly_after
    (task : Task) (f : Frequency) (fromDate : Int) (cache : Cache) (now : Int)
    (d : Int) (hf : task.frequency = some f)
    (hnn : ∀ t h m, f.time = some t → parseTimeHM t = some (h, m) → 0 ≤ h ∧ 0 ≤ m)
    (h : (getNextOccurrence task fromDate cache now).1 = some d) :
    fromDate < d := by
  unfold getNextOccurrence at h
  simp only [hf] at h
  cases hrs : f.rruleString with
  | none => simp [hrs] at h
  | some rs =>
    simp only [hrs] at h
    by_cases hne : rs = ""
    · simp [hne] at h
    · simp only [if_neg hne] at h
      cases hg : getRRule task cache now with
      | error e => simp [hg] at h
      | ok pr =>
        obtain ⟨r, c2⟩ := pr
        simp only [hg] at h
        have hbase : getBaseDate task f fromDate = fromDate := by
          simp [getBaseDate]
        rw [hbase] at h
        cases ha : RRule.after r fromDate false with
        | none => simp [ha] at h
        | some next =>
          simp only [ha, Option.some_inj] at h
          have h1 := after_noninclusive_next_day r fromDate next ha
          have h2 := startOfLocalDay_le_applyFixedTime_of_nonneg f next hnn
          have h3 := lt_startOfLocalDay_add_day fromDate
          omega

/-- C4 (witness for the amended theorem): from `nowTs`, the daily 09:00 task's
next occurrence is 09:00 the next day, strictly after `nowTs`. -/
theorem getNextOccurrence_strictly_after_witness :
    (getNextOccurrence taskDaily nowTs [] nowTs).1 = some 1728118800000 ∧
    nowTs < 1728118800000 :=
  ⟨by decide,
   getNextOccurrence_strictly_after taskDaily freqDaily nowTs [] nowTs 1728118800000 rfl
    (by
      intro t h m ht hp
      have ht1 : t = "09:00" := (Option.some_inj.mp ht).symm
      subst ht1
      have hps : parseTimeHM "09:00" = some (9, 0) := by decide
      rw [hps] at hp
      simp only [Option.some_inj, Prod.mk.injEq] at hp
      obtain ⟨hh, hm⟩ := hp
      subst hh
      subst hm
      exact ⟨by decide, by decide⟩)
    (by decide)⟩

/-! ### C5 — recovery of missed tasks -/

/-- C5 (confirmed, spec-modelled scheduler): with a `LastRunMarker` two days
old and an enabled daily task due one day ago, `recoverMissedTasks` emits the
two missed 09:00 occurrences for that task, oldest first, and advances its
`dueAt` to the first occurrence strictly after now; the otherwise identical
disabled task gets zero events and keeps its `dueAt`. -/
theorem recoverMissedTasks_recovery_scenario :
    (recoverMissedTasks [taskDaily] (some markerTs) nowTs 1000 []).1 =
      [SchedulerEvent.overdue "daily-1" 1727946000000,
       SchedulerEvent.overdue "daily-1" 1728032400000] ∧
    (recoverMissedTasks [taskDaily] (some markerTs) nowTs 1000 []).2.1 =
      [{ taskDaily with dueAt := some 1728118800000 }] ∧
    nowTs < 1728118800000 ∧
    (recoverMissedTasks [{ taskDaily with id := "daily-2", enabled := false }]
        (some markerTs) nowTs 1000 []).1 = [] ∧
    (recoverMissedTasks [{ taskDaily with id := "daily-2", enabled := false }]
        (some markerTs) nowTs 1000 []).2.1 =
      [{ taskDaily with id := "daily-2", enabled := false }] := by
  decide

/-! ### C9 — `isOccurrenceOn` against `computeOccurrencesBetween` -/

/-- C9 (confirmed): `isOccurrenceOn(rule, date)` is true exactly when
`computeOccurrencesBetween` over the local day of `date` — from 00:00:00.000
to 23:59:59.999 — returns a non-empty sequence: both run the library on the
same compiled rule and day range, and the overlay map preserves emptiness;
the guard and error branches return `false` and `[]` in lockstep. -/
theorem isOccurrenceOn_iff_occurrences_nonempty
    (task : Task) (date : Int) (cache : Cache) (now : Int) :
    (isOccurrenceOn task date cache now).1 = true ↔
      (getOccurrencesBetween task (startOfLocalDay date) (endOfLocalDay date)
          cache now).1 ≠ [] := by
  unfold isOccurrenceOn getOccurrencesBetween
  cases hf : task.frequency with
  | none => simp [hf]
  | some f =>
    simp only [hf]
    cases hrs : f.rruleString with
    | none => simp [hrs]
    | some rs =>
      simp only [hrs]
      by_cases hne : rs = ""
      · simp [hne]
      · simp only [if_neg hne]
        cases hg : getRRule task cache now with
        | error e => simp [hg]
        | ok pr =>
          obtain ⟨r, c2⟩ := pr
          simp only [hg]
          simp [List.length_pos]

/-! ### C10 — the compiled-rule cache -/

/-- C10 (confirmed): the compiled-rule cache is keyed by
`(task.id, rruleString)` and a cached entry is only ever read back, never
replaced, by `getRRule`; only `clearCache` empties it. On a cache miss for a
frequency without `dtstart`, the task's current `dueAt` is baked into the
compiled rule as its anchor, and any later call for the same key — even with
a changed `dueAt` — returns that original compiled rule unchanged. -/
theorem getRRule_cache_behaviour
    (task : Task) (f : Frequency) (cache : Cache) (now : Int)
    (hf : task.frequency = some f) :
    (∀ r, cacheFind cache (cacheKey task) = some r →
        getRRule task cache now = Except.ok (r, cache)) ∧
    (∀ k r0 r c2, cacheFind cache k = some r0 →
        getRRule task cache now = Except.ok (r, c2) → cacheFind c2 k = some r0) ∧
    (∀ d1 r c2, f.dtstart = none → task.dueAt = some d1 →
        cacheFind cache (cacheKey task) = none →
        getRRule task cache now = Except.ok (r, c2) →
        r.dtstart = some d1 ∧
        ∀ d2, getRRule { task with dueAt := d2 } c2 now = Except.ok (r, c2)) ∧
    (∀ k, cacheFind (clearCache cache) k = none) := by
  refine ⟨?_, ?_, ?_, fun k => rfl⟩
  · intro r hr
    simp only [getRRule, hf, hr]
  · intro k r0 r c2 hk hok
    unfold getRRule at hok
    simp only [hf] at hok
    cases hhit : cacheFind cache (cacheKey task) with
    | some rc =>
      simp only [hhit, Except.ok.injEq, Prod.mk.injEq] at hok
      obtain ⟨-, hc⟩ := hok
      rw [← hc]
      exact hk
    | none =>
      simp only [hhit] at hok
      cases hp : rrulestr (normalizeRRule (f.rruleString.getD "")) now with
      | error e => simp [hp] at hok
      | ok parsed =>
        simp only [hp, Except.ok.injEq, Prod.mk.injEq] at hok
        obtain ⟨-, hc⟩ := hok
        rw [← hc]
        unfold cacheInsert cacheFind
        have hkk : (cacheKey task == k) = false := by
          refine beq_eq_false_iff_ne.mpr ?_
          intro he
          rw [he] at hhit
          rw [hhit] at hk
          exact Option.noConfusion hk
        rw [hkk]
        simp only [Bool.false_eq_true, if_false]
        exact hk
  · intro d1 r c2 hds hdue hmiss hok
    unfold getRRule at hok
    simp only [hf, hmiss] at hok
    cases hp : rrulestr (normalizeRRule (f.rruleString.getD "")) now with
    | error e => simp [hp] at hok
    | ok parsed =>
      simp only [hp, hds, hdue, Except.ok.injEq, Prod.mk.injEq] at hok
      obtain ⟨hr, hc⟩ := hok
      subst hr
      subst hc
      constructor
      · rfl
      · intro d2
        have hfreq : ({ task with dueAt := d2 } : Task).frequency = some f := hf
        simp only [getRRule, hfreq]
        have hkey : cacheKey { task with dueAt := d2 } = cacheKey task := rfl
        rw [hkey]
        simp [cacheInsert, cacheFind]
        rw [hf]

/-- The compiled rule the engine builds for `taskDaily` on a cache miss:
`FREQ=DAILY` with the task's `dueAt` baked in as `dtstart`. -/
def rDaily : RRule :=
  { freq := some 3, interval := none, «until» := none, count := none,
    byweekday := none, dtstart := some dueYesterdayTs, tzid := some "UTC" }

/-- The cache after compiling `taskDaily`'s rule once. -/
def cacheDaily : Cache := [("daily-1:RRULE:FREQ=DAILY", rDaily)]

/-- C10 (witness): after one compilation that baked `dueAt = dueYesterdayTs`
in as the anchor, the same compiled rule and cache come back even though the
task's `dueAt` has moved to `nowTs`. -/
theorem getRRule_cache_behaviour_witness :
    rDaily.dtstart = some dueYesterdayTs ∧
    getRRule { taskDaily with dueAt := some nowTs } cacheDaily nowTs =
      Except.ok (rDaily, cacheDaily) := by
  have h := (getRRule_cache_behaviour taskDaily freqDaily [] nowTs rfl).2.2.1
    dueYesterdayTs rDaily cacheDaily rfl rfl rfl rfl
  exact ⟨h.1, h.2 (some nowTs)⟩

/-! ### C3 — `computeOccurrencesBetween` ordering and containment -/

/-- Every `between` candidate moves forward by exactly one day per loop
iteration. -/
theorem betweenCand_add_day (dt : Option Int) (cur : Int) :
    betweenCand dt (cur + msPerDay) = betweenCand dt cur + msPerDay := by
  cases dt with
  | none => rfl
  | some d0 =>
    show startOfLocalDay (cur + msPerDay) + hmOf d0 =
      startOfLocalDay cur + hmOf d0 + msPerDay
    rw [startOfLocalDay_add_day]
    omega

/-- The fixed-time overlay commutes with shifting a date by a whole day. -/
theorem applyFixedTime_add_day (f : Frequency) (y : Int) :
    applyFixedTime f (y + msPerDay) = applyFixedTime f y + msPerDay := by
  unfold applyFixedTime
  cases f.time with
  | none => rfl
  | some t =>
    by_cases hne : t = ""
    · simp only [if_pos hne]
    · simp only [if_neg hne]
      cases parseTimeHM t with
      | none => rfl
      | some p =>
        obtain ⟨h1, m1⟩ := p
        simp only
        rw [startOfLocalDay_add_day]
        omega

/-- One loop step advances the overlaid candidate by exactly one day. -/
theorem overlay_cand_step (f : Frequency) (dt : Option Int) (cur : Int) :
    applyFixedTime f (betweenCand dt (cur + msPerDay)) =
      applyFixedTime f (betweenCand dt cur) + msPerDay := by
  rw [betweenCand_add_day, applyFixedTime_add_day]

/-- Every overlaid element of the `between` loop is at least the overlaid
candidate of the loop's starting position. -/
theorem mem_betweenGo_map_ge (f : Frequency) (dt : Option Int) (n : Nat) :
    ∀ cur x, x ∈ (betweenGo dt cur n).map (applyFixedTime f) →
      applyFixedTime f (betweenCand dt cur) ≤ x := by
  induction n with
  | zero =>
    intro cur x hx
    simp [betweenGo] at hx
  | succ n ih =>
    intro cur x hx
    simp only [betweenGo, List.map_cons, List.mem_cons] at hx
    rcases hx with rfl | hx
    · exact le_refl _
    · have h1 := ih (cur + msPerDay) x hx
      have h2 := overlay_cand_step f dt cur
      have hP : (0 : Int) < msPerDay := by decide
      omega

/-- The overlaid `between` loop output is strictly ascending. -/
theorem pairwise_betweenGo_map (f : Frequency) (dt : Option Int) (n : Nat) :
    ∀ cur, ((betweenGo dt cur n).map (applyFixedTime f)).Pairwise (· < ·) := by
  induction n with
  | zero =>
    intro cur
    simp [betweenGo]
  | succ n ih =>
    intro cur
    simp only [betweenGo, List.map_cons, List.pairwise_cons]
    constructor
    · intro y hy
      have h1 := mem_betweenGo_map_ge f dt n (cur + msPerDay) y hy
      have h2 := overlay_cand_step f dt cur
      have hP : 0 < msPerDay := by decide
      omega
    · exact ih (cur + msPerDay)

/-- C3 (counterexample): with bounds 00:00 to 01:00 of day 20000, the single
returned occurrence is 09:00 of that day — strictly after the `end` bound, so
the sequence is not contained in `[start, end]`: the library stub re-times
every candidate to the anchor's time of day, which can leave the range (and
the fixed-time overlay can do the same). -/
theorem getOccurrencesBetween_escapes_range :
    (getOccurrencesBetween
        { taskDaily with frequency := some { freqDaily with time := none } }
        1728000000000 1728003600000 [] nowTs).1 = [1728032400000] ∧
    1728003600000 < 1728032400000 := by
  decide

/-- C3 (amended): `computeOccurrencesBetween` always returns a strictly
ascending — hence duplicate-free — sequence with the fixed-time overlay
applied to every element, but its elements need not lie within
`[start, end]`. -/
theorem getOccurrencesBetween_strictly_ascending
    (task : Task) (fromDate toDate : Int) (cache : Cache) (now : Int) :
    ((getOccurrencesBetween task fromDate toDate cache now).1).Pairwise (· < ·) ∧
    ((getOccurrencesBetween task fromDate toDate cache now).1).Nodup := by
  have hpair : ((getOccurrencesBetween task fromDate toDate cache now).1).Pairwise (· < ·) := by
    unfold getOccurrencesBetween
    cases hf : task.frequency with
    | none => simp
    | some f =>
      simp only [hf]
      cases hrs : f.rruleString with
      | none => simp
      | some rs =>
        simp only [hrs]
        by_cases hne : rs = ""
        · simp [hne]
        · simp only [if_neg hne]
          cases hg : getRRule task cache now with
          | error e => simp
          | ok pr =>
            obtain ⟨r, c2⟩ := pr
            simp only [RRule.between]
            exact pairwise_betweenGo_map f r.dtstart _ fromDate
  exact ⟨hpair, hpair.nodup⟩

/-! ### C6 — debounce coalescing in the persistence controller -/

/-- All `requestSave`s inside one debounce window collapse to a single write
of the last state: the inductive core, starting from a state with `s` pending
and a timer due at `t + D`. -/
theorem runSaves_aux {σ : Type} (D : Nat) (reqs : List (Nat × σ)) :
    ∀ t s horizon, withinWindow D t reqs = true →
      (reqs.getLastD (t, s)).1 + D ≤ horizon →
      (runSaves D { pending := some s, deadline := some (t + D), writes := [] }
          reqs horizon).writes = [(reqs.getLastD (t, s)).2] := by
  induction reqs with
  | nil =>
    intro t s horizon _hw hh
    simp only [List.getLastD] at hh ⊢
    simp only [runSaves, elapseTo]
    rw [if_pos hh]
    rfl
  | cons p rest ih =>
    obtain ⟨t2, s2⟩ := p
    intro t s horizon hw hh
    simp only [withinWindow, Bool.and_eq_true, decide_eq_true_eq] at hw
    obtain ⟨⟨h1, h2⟩, h3⟩ := hw
    simp only [runSaves]
    have helapse :
        elapseTo t2 { pending := some s, deadline := some (t + D), writes := ([] : List σ) } =
          { pending := some s, deadline := some (t + D), writes := [] } := by
      simp only [elapseTo]
      rw [if_neg (by omega)]
    rw [helapse]
    simp only [requestSave]
    rw [List.getLastD_cons] at hh ⊢
    exact ih t2 s2 horizon h3 hh

/-- C6 (confirmed, spec-modelled controller): a sequence of `requestSave`
calls that all fall within one debounce window, followed by waiting past the
window, performs exactly one `Writer.write`, carrying the state of the last
`requestSave` — the pending slot is a single cell each call replaces, not a
queue. -/
theorem runSaves_single_write_last {σ : Type} (D t : Nat) (s : σ)
    (reqs : List (Nat × σ)) (horizon : Nat)
    (hw : withinWindow D t reqs = true)
    (hh : (reqs.getLastD (t, s)).1 + D ≤ horizon) :
    (runSaves D { pending := none, deadline := none, writes := [] }
        ((t, s) :: reqs) horizon).writes = [(reqs.getLastD (t, s)).2] := by
  have h0 : requestSave D t s
      (elapseTo t { pending := none, deadline := none, writes := ([] : List σ) }) =
      { pending := some s, deadline := some (t + D), writes := [] } := rfl
  simp only [runSaves, h0]
  exact runSaves_aux D reqs t s horizon hw hh

/-- C6 (witness): three saves at times 0, 1, 2 with a 10 ms debounce, checked
at time 17, produce exactly one write carrying the third state. -/
theorem runSaves_single_write_last_witness :
    (runSaves 10 { pending := none, deadline := none, writes := ([] : List Nat) }
        [(0, 1), (1, 2), (2, 3)] 17).writes = [3] :=
  (runSaves_single_write_last 10 0 1 [(1, 2), (2, 3)] 17 (by decide) (by decide)).trans
    (by decide)

end RecurringCore
